import Mathlib

/-!
Shallow embedding of the multiplayer relay server in `src/server/server.js`.

The server keeps a JavaScript object `players` mapping socket ids to player
records and reacts to three socket.io events:

* `connection` (lines 19-34): inserts a default record for the new socket id,
  sends the whole `players` object to the new client (`currentPlayers`) and
  broadcasts the new record to everyone else (`newPlayer`);
* `playerMovement` (lines 37-44): overwrites the `position`, `quaternion` and
  `velocity` fields of the sender's record with the received data and
  broadcasts the updated record to everyone except the sender (`playerMoved`);
* `disconnect` (lines 47-51): deletes the sender's record and emits
  `playerDisconnected` with the sender's id to every remaining connection.

The registry is modelled as an association list with JavaScript object
semantics (`objGet`, `objSet`, `objDelete`), numbers as rationals (the server
performs no arithmetic on them: every value is relayed verbatim), and each
handler as a function from server state to new state plus the list of emitted
messages, each tagged with its set of recipient connections.
-/

namespace SpaceTrdr

/-- Socket ids are opaque strings assigned by socket.io. -/
abbrev SockId := String

/-- A 3-component vector, e.g. `{x: 0, y: 0, z: 0}` in the source. -/
structure Vec3 where
  x : ℚ
  y : ℚ
  z : ℚ
deriving DecidableEq, Repr

/-- A quaternion `{_x, _y, _z, _w}` as sent by the client (THREE.js layout). -/
structure Quat where
  qx : ℚ
  qy : ℚ
  qz : ℚ
  qw : ℚ
deriving DecidableEq, Repr

/-- One entry of the `players` object (server.js lines 23-28). -/
structure PlayerState where
  id : SockId
  position : Vec3
  quaternion : Quat
  velocity : Vec3
deriving DecidableEq, Repr

/-- The `players` object: an insertion-ordered map from socket id to state. -/
abbrev Registry := List (SockId × PlayerState)

/-- JavaScript property read `players[k]`: `none` models `undefined`. -/
def objGet : Registry → SockId → Option PlayerState
  | [], _ => none
  | (k', v) :: rest, k => if k' = k then some v else objGet rest k

/-- JavaScript property write `players[k] = v`: overwrite in place if the key
exists, otherwise append (JS objects keep insertion order). -/
def objSet : Registry → SockId → PlayerState → Registry
  | [], k, v => [(k, v)]
  | (k', v') :: rest, k, v =>
      if k' = k then (k', v) :: rest else (k', v') :: objSet rest k v

/-- JavaScript `delete players[k]`: removes the entry, no-op if absent. -/
def objDelete (m : Registry) (k : SockId) : Registry :=
  m.filter (fun e => e.1 != k)

/-- The key set of the `players` object (`Object.keys(players)`). -/
def objKeys (m : Registry) : List SockId :=
  m.map Prod.fst

/-- The default record inserted at connect time (server.js lines 23-28):
position `(0,0,0)`, identity quaternion `(0,0,0,1)`, velocity `(0,0,0)`. -/
def defaultPlayer (i : SockId) : PlayerState :=
  { id := i
    position := ⟨0, 0, 0⟩
    quaternion := ⟨0, 0, 0, 1⟩
    velocity := ⟨0, 0, 0⟩ }

/-- The wire messages the server emits (§6 of the protocol). -/
inductive Msg where
  | currentPlayers (reg : Registry)
  | newPlayer (p : PlayerState)
  | playerMoved (p : PlayerState)
  | playerDisconnected (i : SockId)
deriving DecidableEq, Repr

/-- One fan-out: a message together with the connections it is delivered to. -/
structure Emit where
  recipients : List SockId
  msg : Msg
deriving DecidableEq, Repr

/-- Server state: the transport layer's list of open connections (socket.io's
namespace membership) and the `players` registry. -/
structure ServerState where
  conns : List SockId
  players : Registry
deriving DecidableEq, Repr

/-- The state before any connection: no sockets, empty `players` object. -/
def initState : ServerState := ⟨[], []⟩

/-- The `connection` handler (server.js lines 19-34). socket.io adds the
socket to the namespace before the handler runs, so the new id is already a
connection when `socket.broadcast.emit` fans out. `socket.emit` reaches only
the new client; `socket.broadcast.emit` reaches every connection except it.
The `currentPlayers` snapshot is taken after the insertion. -/
def onConnect (s : ServerState) (i : SockId) : ServerState × List Emit :=
  let conns' := if s.conns.contains i then s.conns else s.conns ++ [i]
  let players' := objSet s.players i (defaultPlayer i)
  (⟨conns', players'⟩,
   [⟨[i], Msg.currentPlayers players'⟩,
    ⟨conns'.filter (fun c => c != i), Msg.newPlayer (defaultPlayer i)⟩])

/-- The `playerMovement` handler (server.js lines 37-44). It dereferences
`players[socket.id]` unconditionally: if the entry is absent this is
`undefined.position = ...`, a TypeError, modelled as `Except.error ()` with
the registry untouched. Otherwise the three fields are overwritten with the
received data verbatim and the updated record is broadcast to every
connection except the sender. -/
def onMovementUpdate (s : ServerState) (i : SockId) (p : Vec3) (q : Quat)
    (v : Vec3) : Except Unit (ServerState × List Emit) :=
  match objGet s.players i with
  | none => .error ()
  | some old =>
      let upd : PlayerState := { old with position := p, quaternion := q, velocity := v }
      .ok (⟨s.conns, objSet s.players i upd⟩,
           [⟨s.conns.filter (fun c => c != i), Msg.playerMoved upd⟩])

/-- The `disconnect` handler (server.js lines 47-51). By the time the event
fires the socket has left the namespace, so `io.emit` reaches exactly the
remaining connections. `delete` is a no-op on an absent key. -/
def onDisconnect (s : ServerState) (i : SockId) : ServerState × List Emit :=
  let conns' := s.conns.filter (fun c => c != i)
  (⟨conns', objDelete s.players i⟩,
   [⟨conns', Msg.playerDisconnected i⟩])

/-- The transport-level events driving the server. -/
inductive Event where
  | connect (i : SockId)
  | movement (i : SockId) (p : Vec3) (q : Quat) (v : Vec3)
  | disconnect (i : SockId)
deriving DecidableEq, Repr

/-- One event-loop step: the state after handling one event. A movement
update for an unknown id throws in the source; the exception propagates out
of the handler, leaving the registry as it was. -/
def step (s : ServerState) : Event → ServerState
  | .connect i => (onConnect s i).1
  | .movement i p q v =>
      match onMovementUpdate s i p q v with
      | .ok (s', _) => s'
      | .error _ => s
  | .disconnect i => (onDisconnect s i).1

/-- Run a sequence of events from a given state. -/
def runFrom (s : ServerState) : List Event → ServerState
  | [] => s
  | e :: rest => runFrom (step s e) rest

/-- Run a sequence of events from the initial (empty) state. -/
def run (evs : List Event) : ServerState :=
  runFrom initState evs

/-- The transport layer's guarantees (§4.1, §7 of the spec): `connection`
fires only for a fresh id, and `playerMovement` / `disconnect` events of a
socket arrive only while that socket is connected. -/
def eventValid (s : ServerState) : Event → Bool
  | .connect i => !(s.conns.contains i)
  | .movement i _ _ _ => s.conns.contains i
  | .disconnect i => s.conns.contains i

/-- A transport-valid event sequence starting from `s`. -/
def validFrom (s : ServerState) : List Event → Bool
  | [] => true
  | e :: rest => eventValid s e && validFrom (step s e) rest

/-! ### Lemmas about the JavaScript object operations -/

theorem objKeys_nil : objKeys [] = [] := rfl

theorem objKeys_cons (e : SockId × PlayerState) (rest : Registry) :
    objKeys (e :: rest) = e.1 :: objKeys rest := rfl

theorem objGet_objSet_self (m : Registry) (k : SockId) (v : PlayerState) :
    objGet (objSet m k v) k = some v := by
  induction m with
  | nil => simp [objSet, objGet]
  | cons e rest ih =>
      obtain ⟨a, b⟩ := e
      by_cases h : a = k
      · simp [objSet, objGet, h]
      · simp [objSet, objGet, h, ih]

theorem objGet_objSet_other (m : Registry) (k k' : SockId) (v : PlayerState)
    (hne : k' ≠ k) : objGet (objSet m k v) k' = objGet m k' := by
  induction m with
  | nil => simp [objSet, objGet, Ne.symm hne]
  | cons e rest ih =>
      obtain ⟨a, b⟩ := e
      by_cases h : a = k
      · subst h
        simp [objSet, objGet, Ne.symm hne]
      · simp [objSet, objGet, h, ih]

theorem mem_objKeys_objSet (m : Registry) (k j : SockId) (v : PlayerState) :
    j ∈ objKeys (objSet m k v) ↔ j = k ∨ j ∈ objKeys m := by
  induction m with
  | nil => simp [objSet, objKeys]
  | cons e rest ih =>
      obtain ⟨a, b⟩ := e
      by_cases h : a = k
      · subst h
        simp [objSet, objKeys_cons]
      · simp only [objSet, h, if_false, objKeys_cons, List.mem_cons, ih]
        tauto

theorem objGet_objDelete_self (m : Registry) (k : SockId) :
    objGet (objDelete m k) k = none := by
  induction m with
  | nil => rfl
  | cons e rest ih =>
      obtain ⟨a, b⟩ := e
      by_cases h : a = k
      · simpa [objDelete, List.filter_cons, h] using ih
      · simpa [objDelete, List.filter_cons, h, objGet] using ih

theorem objGet_objDelete_other (m : Registry) (k k' : SockId) (hne : k' ≠ k) :
    objGet (objDelete m k) k' = objGet m k' := by
  induction m with
  | nil => rfl
  | cons e rest ih =>
      obtain ⟨a, b⟩ := e
      by_cases h : a = k
      · subst h
        simpa [objDelete, List.filter_cons, objGet, Ne.symm hne] using ih
      · simp only [objDelete, List.filter_cons] at ih ⊢
        rw [show ((a, b).1 != k) = true by simpa using h]
        simp only [objGet, ih]

theorem mem_objKeys_objDelete (m : Registry) (k j : SockId) :
    j ∈ objKeys (objDelete m k) ↔ j ≠ k ∧ j ∈ objKeys m := by
  induction m with
  | nil => simp [objDelete, objKeys_nil]
  | cons e rest ih =>
      obtain ⟨a, b⟩ := e
      by_cases h : a = k
      · subst h
        simp only [objDelete, List.filter_cons] at ih ⊢
        simp only [bne_self_eq_false, if_false, objKeys_cons, List.mem_cons, ih]
        tauto
      · simp only [objDelete, List.filter_cons] at ih ⊢
        rw [show ((a, b).1 != k) = true by simpa using h]
        simp only [if_true, objKeys_cons, List.mem_cons, ih]
        constructor
        · rintro (rfl | ⟨hj, hm⟩)
          · exact ⟨h, Or.inl rfl⟩
          · exact ⟨hj, Or.inr hm⟩
        · rintro ⟨hj, rfl | hm⟩
          · exact Or.inl rfl
          · exact Or.inr ⟨hj, hm⟩

theorem mem_objKeys_iff_isSome (m : Registry) (j : SockId) :
    j ∈ objKeys m ↔ (objGet m j).isSome := by
  induction m with
  | nil => simp [objKeys_nil, objGet]
  | cons e rest ih =>
      obtain ⟨a, b⟩ := e
      by_cases h : a = j
      · simp [objKeys_cons, objGet, h]
      · simp [objKeys_cons, objGet, h, ih, Ne.symm h]

theorem objDelete_objDelete (m : Registry) (k : SockId) :
    objDelete (objDelete m k) k = objDelete m k := by
  simp [objDelete, List.filter_filter]

theorem objDelete_of_objGet_none (m : Registry) (k : SockId)
    (h : objGet m k = none) : objDelete m k = m := by
  induction m with
  | nil => rfl
  | cons e rest ih =>
      obtain ⟨a, b⟩ := e
      simp only [objGet] at h
      by_cases he : a = k
      · simp [he] at h
      · simp only [he, if_false] at h
        simp only [objDelete, List.filter_cons] at ih ⊢
        rw [show ((a, b).1 != k) = true by simpa using he]
        simp only [if_true, ih h]

/-! ### Lemmas about the handlers and the event loop -/

theorem mem_conns_onConnect (s : ServerState) (i j : SockId) :
    j ∈ (onConnect s i).1.conns ↔ j = i ∨ j ∈ s.conns := by
  by_cases h : s.conns.contains i
  · have hi : i ∈ s.conns := by simpa using h
    show j ∈ (if s.conns.contains i then s.conns else s.conns ++ [i]) ↔ _
    rw [if_pos h]
    constructor
    · exact Or.inr
    · rintro (rfl | hj)
      · exact hi
      · exact hj
  · show j ∈ (if s.conns.contains i then s.conns else s.conns ++ [i]) ↔ _
    rw [if_neg h]
    simp [List.mem_append]
    tauto

theorem mem_conns_onDisconnect (s : ServerState) (i j : SockId) :
    j ∈ (onDisconnect s i).1.conns ↔ j ≠ i ∧ j ∈ s.conns := by
  show j ∈ s.conns.filter (fun c => c != i) ↔ _
  simp [List.mem_filter]
  tauto

/-- Success characterization of the `playerMovement` handler: it succeeds
exactly when the sender has an entry, and then the new state and the emitted
broadcast are fully determined. -/
theorem onMovementUpdate_ok (s : ServerState) (i : SockId) (p : Vec3) (q : Quat)
    (v : Vec3) (s' : ServerState) (emits : List Emit)
    (h : onMovementUpdate s i p q v = .ok (s', emits)) :
    ∃ old, objGet s.players i = some old ∧
      s' = ⟨s.conns, objSet s.players i
              { old with position := p, quaternion := q, velocity := v }⟩ ∧
      emits = [⟨s.conns.filter (fun c => c != i),
                Msg.playerMoved { old with position := p, quaternion := q, velocity := v }⟩] := by
  cases hold : objGet s.players i with
  | none => simp [onMovementUpdate, hold] at h
  | some old =>
      simp only [onMovementUpdate, hold, Except.ok.injEq, Prod.mk.injEq] at h
      exact ⟨old, rfl, h.1.symm, h.2.symm⟩

/-- The registry/connection invariant of C1. -/
def keysMatchConns (s : ServerState) : Prop :=
  ∀ i, i ∈ objKeys s.players ↔ i ∈ s.conns

theorem keysMatchConns_init : keysMatchConns initState := by
  intro i
  simp [initState, objKeys_nil]

theorem keysMatchConns_step (s : ServerState) (e : Event)
    (hs : keysMatchConns s) (he : eventValid s e = true) :
    keysMatchConns (step s e) := by
  cases e with
  | connect i =>
      intro j
      simp only [step]
      rw [show (onConnect s i).1.players = objSet s.players i (defaultPlayer i) from rfl,
          mem_objKeys_objSet, mem_conns_onConnect, hs j]
  | movement i p q v =>
      have hi : i ∈ s.conns := by simpa [eventValid] using he
      have hk : i ∈ objKeys s.players := (hs i).2 hi
      rw [mem_objKeys_iff_isSome] at hk
      obtain ⟨old, hold⟩ := Option.isSome_iff_exists.mp hk
      intro j
      simp only [step, onMovementUpdate, hold]
      rw [mem_objKeys_objSet, hs j]
      constructor
      · rintro (rfl | hj)
        · exact hi
        · exact hj
      · exact Or.inr
  | disconnect i =>
      intro j
      simp only [step]
      rw [show (onDisconnect s i).1.players = objDelete s.players i from rfl,
          mem_objKeys_objDelete, mem_conns_onDisconnect, hs j]

theorem keysMatchConns_runFrom (evs : List Event) (s : ServerState)
    (hs : keysMatchConns s) (hv : validFrom s evs = true) :
    keysMatchConns (runFrom s evs) := by
  induction evs generalizing s with
  | nil => exact hs
  | cons e rest ih =>
      simp only [validFrom, Bool.and_eq_true] at hv
      exact ih (step s e) (keysMatchConns_step s e hs hv.1) hv.2

theorem validFrom_append_left (s : ServerState) (pre suf : List Event)
    (h : validFrom s (pre ++ suf) = true) : validFrom s pre = true := by
  induction pre generalizing s with
  | nil => rfl
  | cons e rest ih =>
      simp only [List.cons_append, validFrom, Bool.and_eq_true] at h ⊢
      exact ⟨h.1, ih (step s e) h.2⟩

/-- The C9 invariant: every stored record's `id` field equals its map key. -/
def entriesOwnKey (s : ServerState) : Prop :=
  ∀ i pl, objGet s.players i = some pl → pl.id = i

theorem entriesOwnKey_step (s : ServerState) (e : Event)
    (hs : entriesOwnKey s) : entriesOwnKey (step s e) := by
  cases e with
  | connect i =>
      intro j pl hj
      rw [show (step s (Event.connect i)).players = objSet s.players i (defaultPlayer i)
          from rfl] at hj
      by_cases h : j = i
      · subst h
        rw [objGet_objSet_self] at hj
        cases hj
        rfl
      · rw [objGet_objSet_other s.players i j (defaultPlayer i) h] at hj
        exact hs j pl hj
  | movement i p q v =>
      cases hold : objGet s.players i with
      | none =>
          intro j pl hj
          simp only [step, onMovementUpdate, hold] at hj
          exact hs j pl hj
      | some old =>
          intro j pl hj
          simp only [step, onMovementUpdate, hold] at hj
          by_cases h : j = i
          · subst h
            rw [objGet_objSet_self] at hj
            cases hj
            exact hs j old hold
          · rw [objGet_objSet_other s.players i j _ h] at hj
            exact hs j pl hj
  | disconnect i =>
      intro j pl hj
      rw [show (step s (Event.disconnect i)).players = objDelete s.players i from rfl] at hj
      by_cases h : j = i
      · subst h
        rw [objGet_objDelete_self] at hj
        cases hj
      · rw [objGet_objDelete_other s.players i j h] at hj
        exact hs j pl hj

theorem entriesOwnKey_runFrom (evs : List Event) (s : ServerState)
    (hs : entriesOwnKey s) : entriesOwnKey (runFrom s evs) := by
  induction evs generalizing s with
  | nil => exact hs
  | cons e rest ih => exact ih (step s e) (entriesOwnKey_step s e hs)

/-! ### The claims -/

/-- C1: for every transport-valid sequence of connect / movement / disconnect
events starting from the empty registry, after each operation (i.e. after
every prefix of the sequence) the registry's key set equals exactly the set
of currently-open connection ids. -/
theorem registry_keys_track_connections (evs pre suf : List Event)
    (hsplit : evs = pre ++ suf)
    (hv : validFrom initState evs = true) :
    ∀ i, i ∈ objKeys (run pre).players ↔ i ∈ (run pre).conns := by
  subst hsplit
  exact keysMatchConns_runFrom pre initState keysMatchConns_init
    (validFrom_append_left initState pre suf hv)

theorem registry_keys_track_connections_witness :
    "a" ∈ objKeys (run [Event.connect "a", Event.disconnect "a"]).players ↔
      "a" ∈ (run [Event.connect "a", Event.disconnect "a"]).conns :=
  registry_keys_track_connections [Event.connect "a", Event.disconnect "a"]
    [Event.connect "a", Event.disconnect "a"] [] rfl (by decide) "a"

/-- C2: when the sender has an entry, the movement handler succeeds and the
stored record afterwards holds exactly the supplied position, quaternion and
velocity, stored verbatim (the arbitrary rational components show that no
validation, clamping or quaternion normalization is applied); only the `id`
field is kept from the old record. -/
theorem movement_update_full_replace (s : ServerState) (i : SockId)
    (p : Vec3) (q : Quat) (v : Vec3) (old : PlayerState)
    (hold : objGet s.players i = some old) :
    ∃ s' emits, onMovementUpdate s i p q v = .ok (s', emits) ∧
      objGet s'.players i =
        some { id := old.id, position := p, quaternion := q, velocity := v } := by
  refine ⟨⟨s.conns, objSet s.players i
        { old with position := p, quaternion := q, velocity := v }⟩,
      [⟨s.conns.filter (fun c => c != i),
        Msg.playerMoved { old with position := p, quaternion := q, velocity := v }⟩],
      ?_, ?_⟩
  · simp [onMovementUpdate, hold]
  · exact objGet_objSet_self s.players i
      { old with position := p, quaternion := q, velocity := v }

theorem movement_update_full_replace_witness :
    ∃ s' emits,
      onMovementUpdate ⟨["a"], [("a", defaultPlayer "a")]⟩ "a"
          ⟨1, 2, 3⟩ ⟨0, 0, 0, 1⟩ ⟨4, 5, 6⟩ = .ok (s', emits) ∧
      objGet s'.players "a" =
        some { id := (defaultPlayer "a").id, position := ⟨1, 2, 3⟩,
               quaternion := ⟨0, 0, 0, 1⟩, velocity := ⟨4, 5, 6⟩ } :=
  movement_update_full_replace ⟨["a"], [("a", defaultPlayer "a")]⟩ "a"
    ⟨1, 2, 3⟩ ⟨0, 0, 0, 1⟩ ⟨4, 5, 6⟩ (defaultPlayer "a") rfl

/-- C3: the `playerMovement` handler on an id with no registry entry is NOT a
no-op — the source dereferences `players[socket.id]` unconditionally, so the
update throws a TypeError (modelled as `Except.error`), contradicting the
spec's "treat as a no-op rather than fatal". Evaluated here at the concrete
failing input: empty registry, sender id `"a"`. -/
theorem movement_update_unknown_id_throws :
    onMovementUpdate initState "a" ⟨1, 2, 3⟩ ⟨0, 0, 0, 1⟩ ⟨0, 0, 0⟩ =
      .error () := rfl

/-- C4: `OnDisconnect` is idempotent on the registry: the first call removes
exactly the id's entry (if present) and leaves every other entry unchanged,
and a second consecutive call for the same id produces no state change at all
(and is total — never an error). -/
theorem disconnect_idempotent (s : ServerState) (i : SockId) :
    objGet (onDisconnect s i).1.players i = none ∧
    (∀ j, j ≠ i → objGet (onDisconnect s i).1.players j = objGet s.players j) ∧
    (onDisconnect (onDisconnect s i).1 i).1 = (onDisconnect s i).1 := by
  refine ⟨objGet_objDelete_self s.players i,
      fun j hj => objGet_objDelete_other s.players i j hj, ?_⟩
  have h1 : (s.conns.filter (fun c => c != i)).filter (fun c => c != i)
      = s.conns.filter (fun c => c != i) := by
    rw [List.filter_filter]
    congr 1
    funext c
    exact Bool.and_self _
  show (⟨(s.conns.filter (fun c => c != i)).filter (fun c => c != i),
        objDelete (objDelete s.players i) i⟩ : ServerState) = _
  rw [h1, objDelete_objDelete]
  rfl

/-- C5: the `playerMoved` broadcast of a successful movement update goes to
exactly the connections other than the sender (in particular never back to
the sender), while the `playerDisconnected` broadcast goes to exactly the
connections remaining after the sender is removed. -/
theorem broadcast_recipients (s : ServerState) (i : SockId) (p : Vec3)
    (q : Quat) (v : Vec3) (s' : ServerState) (emits : List Emit)
    (h : onMovementUpdate s i p q v = .ok (s', emits)) :
    (∀ e, e ∈ emits →
      i ∉ e.recipients ∧ (∀ j, j ∈ e.recipients ↔ (j ∈ s.conns ∧ j ≠ i))) ∧
    (∀ e, e ∈ (onDisconnect s i).2 →
      ∀ j, j ∈ e.recipients ↔ j ∈ (onDisconnect s i).1.conns) := by
  obtain ⟨old, hold, rfl, rfl⟩ := onMovementUpdate_ok s i p q v _ _ h
  constructor
  · intro e he
    rw [List.mem_singleton] at he
    subst he
    constructor
    · simp [List.mem_filter]
    · intro j
      simp [List.mem_filter]
  · intro e he
    rw [show (onDisconnect s i).2
        = [⟨s.conns.filter (fun c => c != i), Msg.playerDisconnected i⟩] from rfl,
      List.mem_singleton] at he
    subst he
    intro j
    rfl

theorem broadcast_recipients_witness :
    (∀ e, e ∈ [Emit.mk ["b"]
          (Msg.playerMoved ⟨"a", ⟨1, 2, 3⟩, ⟨0, 0, 0, 1⟩, ⟨4, 5, 6⟩⟩)] →
      "a" ∉ e.recipients ∧
        (∀ j, j ∈ e.recipients ↔ (j ∈ ["a", "b"] ∧ j ≠ "a"))) ∧
    (∀ e, e ∈ (onDisconnect
          ⟨["a", "b"], [("a", defaultPlayer "a"), ("b", defaultPlayer "b")]⟩ "a").2 →
      ∀ j, j ∈ e.recipients ↔ j ∈ (onDisconnect
          ⟨["a", "b"], [("a", defaultPlayer "a"), ("b", defaultPlayer "b")]⟩ "a").1.conns) :=
  broadcast_recipients
    ⟨["a", "b"], [("a", defaultPlayer "a"), ("b", defaultPlayer "b")]⟩ "a"
    ⟨1, 2, 3⟩ ⟨0, 0, 0, 1⟩ ⟨4, 5, 6⟩
    ⟨["a", "b"], [("a", ⟨"a", ⟨1, 2, 3⟩, ⟨0, 0, 0, 1⟩, ⟨4, 5, 6⟩⟩),
                  ("b", defaultPlayer "b")]⟩
    [Emit.mk ["b"] (Msg.playerMoved ⟨"a", ⟨1, 2, 3⟩, ⟨0, 0, 0, 1⟩, ⟨4, 5, 6⟩⟩)]
    rfl

/-- C6: `OnConnect(id)` creates a registry entry for `id` whose state is
exactly the default: position `(0,0,0)`, identity quaternion `(0,0,0,1)`,
velocity `(0,0,0)` (proved for every state, in particular every fresh id). -/
theorem connect_creates_default_entry (s : ServerState) (i : SockId) :
    objGet (onConnect s i).1.players i =
      some { id := i, position := ⟨0, 0, 0⟩, quaternion := ⟨0, 0, 0, 1⟩,
             velocity := ⟨0, 0, 0⟩ } :=
  objGet_objSet_self s.players i (defaultPlayer i)

/-- C7: on connect, the `currentPlayers` snapshot is sent only to the new
client and is taken after the insertion: it contains the new client's own
default entry and agrees with the prior registry on every other id; the
`newPlayer` notice carries only the new default entry and goes to every
connection other than the new client. -/
theorem connect_snapshot_after_insert (s : ServerState) (i : SockId) :
    ∃ snap others,
      (onConnect s i).2 =
        [⟨[i], Msg.currentPlayers snap⟩, ⟨others, Msg.newPlayer (defaultPlayer i)⟩] ∧
      objGet snap i = some (defaultPlayer i) ∧
      (∀ j, j ≠ i → objGet snap j = objGet s.players j) ∧
      i ∉ others ∧
      (∀ j, j ∈ others ↔ (j ∈ (onConnect s i).1.conns ∧ j ≠ i)) := by
  refine ⟨objSet s.players i (defaultPlayer i),
      (if s.conns.contains i then s.conns else s.conns ++ [i]).filter (fun c => c != i),
      rfl, objGet_objSet_self s.players i (defaultPlayer i),
      fun j hj => objGet_objSet_other s.players i j (defaultPlayer i) hj, ?_, ?_⟩
  · simp [List.mem_filter]
  · intro j
    show _ ↔ j ∈ (if s.conns.contains i then s.conns else s.conns ++ [i]) ∧ j ≠ i
    simp [List.mem_filter]

/-- C8: a successful movement update for `id` leaves every registry entry
with a different key unchanged (and the connection list untouched), so
updates from distinct connections never contaminate each other's entries. -/
theorem movement_update_frame (s : ServerState) (i : SockId) (p : Vec3)
    (q : Quat) (v : Vec3) (s' : ServerState) (emits : List Emit)
    (h : onMovementUpdate s i p q v = .ok (s', emits)) :
    (∀ j, j ≠ i → objGet s'.players j = objGet s.players j) ∧
    s'.conns = s.conns := by
  obtain ⟨old, hold, rfl, rfl⟩ := onMovementUpdate_ok s i p q v _ _ h
  exact ⟨fun j hj => objGet_objSet_other s.players i j _ hj, rfl⟩

theorem movement_update_frame_witness :
    (∀ j, j ≠ "a" →
      objGet [("a", PlayerState.mk "a" ⟨1, 2, 3⟩ ⟨0, 0, 0, 1⟩ ⟨4, 5, 6⟩),
              ("b", defaultPlayer "b")] j =
      objGet [("a", defaultPlayer "a"), ("b", defaultPlayer "b")] j) ∧
    (["a", "b"] : List SockId) = ["a", "b"] :=
  movement_update_frame
    ⟨["a", "b"], [("a", defaultPlayer "a"), ("b", defaultPlayer "b")]⟩ "a"
    ⟨1, 2, 3⟩ ⟨0, 0, 0, 1⟩ ⟨4, 5, 6⟩
    ⟨["a", "b"], [("a", PlayerState.mk "a" ⟨1, 2, 3⟩ ⟨0, 0, 0, 1⟩ ⟨4, 5, 6⟩),
                  ("b", defaultPlayer "b")]⟩
    [Emit.mk ["b"] (Msg.playerMoved (PlayerState.mk "a" ⟨1, 2, 3⟩ ⟨0, 0, 0, 1⟩ ⟨4, 5, 6⟩))]
    rfl

/-- C9: in every state reachable from the empty state by any event sequence,
every stored record's `id` field equals the key it is stored under: connect
stores a record carrying its own id, movement updates never touch the `id`
field, and disconnect only removes whole entries. -/
theorem stored_id_equals_key (evs : List Event) (i : SockId) (pl : PlayerState)
    (h : objGet (run evs).players i = some pl) : pl.id = i := by
  have : entriesOwnKey (run evs) :=
    entriesOwnKey_runFrom evs initState (fun j q hq => by cases hq)
  exact this i pl h

theorem stored_id_equals_key_witness : (defaultPlayer "a").id = "a" :=
  stored_id_equals_key [Event.connect "a"] "a" (defaultPlayer "a") (by decide)

/-- C10: a connect for an id that already has a registry entry silently
overwrites that entry with the default state (it is neither rejected nor
left unchanged), and the full connect side effects happen again: the
`currentPlayers` snapshot goes to that connection and a `newPlayer` notice
carrying the default entry goes to the others. -/
theorem duplicate_connect_overwrites (s : ServerState) (i : SockId)
    (old : PlayerState) (_hold : objGet s.players i = some old) :
    objGet (onConnect s i).1.players i = some (defaultPlayer i) ∧
    ∃ snap others,
      (onConnect s i).2 =
        [⟨[i], Msg.currentPlayers snap⟩, ⟨others, Msg.newPlayer (defaultPlayer i)⟩] ∧
      i ∉ others := by
  refine ⟨objGet_objSet_self s.players i (defaultPlayer i),
      objSet s.players i (defaultPlayer i),
      (if s.conns.contains i then s.conns else s.conns ++ [i]).filter (fun c => c != i),
      rfl, ?_⟩
  simp [List.mem_filter]

theorem duplicate_connect_overwrites_witness :
    objGet (onConnect ⟨["a"], [("a", PlayerState.mk "a" ⟨7, 8, 9⟩ ⟨0, 0, 0, 1⟩ ⟨0, 0, 0⟩)]⟩
        "a").1.players "a" = some (defaultPlayer "a") ∧
    ∃ snap others,
      (onConnect ⟨["a"], [("a", PlayerState.mk "a" ⟨7, 8, 9⟩ ⟨0, 0, 0, 1⟩ ⟨0, 0, 0⟩)]⟩ "a").2 =
        [⟨["a"], Msg.currentPlayers snap⟩, ⟨others, Msg.newPlayer (defaultPlayer "a")⟩] ∧
      "a" ∉ others :=
  duplicate_connect_overwrites
    ⟨["a"], [("a", PlayerState.mk "a" ⟨7, 8, 9⟩ ⟨0, 0, 0, 1⟩ ⟨0, 0, 0⟩)]⟩ "a"
    (PlayerState.mk "a" ⟨7, 8, 9⟩ ⟨0, 0, 0, 1⟩ ⟨0, 0, 0⟩) (by decide)

end SpaceTrdr
